import Mathlib

/-!
Shallow embedding of the meerkat core: the deferred-map pipeline
(`meerkat/ops/map.py`), the sort operation (`meerkat/ops/sort.py`), the
reactive boolean helpers (`meerkat/ops/cond.py`), and the endpoint
dispatch record (`meerkat/interactive/api/routers/endpoint.py`).

Python values are modelled by the inductive `PyVal`; columns are lists of
`PyVal`; fallible Python code (raising ValueError / KeyError / IndexError
/ TriggerError) is modelled with `Except String`.
-/

namespace Meerkat

/-- A Python value, restricted to the shapes the core manipulates:
`None`, booleans, integers, strings, tuples and (string-keyed) dicts. -/
inductive PyVal where
  | none
  | bool (b : Bool)
  | int (n : Int)
  | str (s : String)
  | tuple (xs : List PyVal)
  | dict (kvs : List (String × PyVal))
deriving Repr, Inhabited

/-- Python truthiness (`bool(v)`): `None`, `False`, `0`, `""` and empty
containers are falsy, everything else is truthy. -/
def PyVal.truthy : PyVal → Bool
  | .none => false
  | .bool b => b
  | .int n => decide (n ≠ 0)
  | .str s => decide (s ≠ "")
  | .tuple xs => !xs.isEmpty
  | .dict kvs => !kvs.isEmpty

/-- The runtime type tag of a value, `type(v)` in Python. -/
inductive PyType where
  | noneType
  | boolT
  | intT
  | strT
  | tupleT
  | dictT
deriving Repr, DecidableEq, Inhabited

/-- `type(v)`. -/
def PyVal.typeOf : PyVal → PyType
  | .none => .noneType
  | .bool _ => .boolT
  | .int _ => .intT
  | .str _ => .strT
  | .tuple _ => .tupleT
  | .dict _ => .dictT

/-- Whether an `Except` computation ended in a raised exception. -/
def isErr {ε α : Type} : Except ε α → Bool
  | .error _ => true
  | .ok _ => false

/-- Monadic map over a list in `Except`, failing on the first error
(the order Python evaluates a comprehension in). -/
def mapE {α β : Type} (f : α → Except String β) : List α → Except String (List β)
  | [] => .ok []
  | a :: as => do
    let b ← f a
    let bs ← mapE f as
    .ok (b :: bs)

/-- Python `m[k]` on a dict: the stored value, or a raised `KeyError`. -/
def dictLookup {α : Type} (m : List (String × α)) (k : String) : Except String α :=
  match m.lookup k with
  | some v => .ok v
  | Option.none => .error ("KeyError: " ++ k)

/-- Python `l[i]` on a list/tuple: the element, or a raised `IndexError`. -/
def listGet {α : Type} (l : List α) (i : Nat) : Except String α :=
  match l[i]? with
  | some v => .ok v
  | Option.none => .error "IndexError: list index out of range"

/-! ## `meerkat/ops/cond.py`: the reactive boolean helpers

`cand` and `cor` take `*args`; with zero arguments the initial `args[0]`
raises an `IndexError`. The reactive decorator is a no-op outside a
reactive context, so the plain fold below is the whole behaviour. -/

/-- `cand(*args)`: `x = args[0]; for y in args[1:]: x = x and y; return x`,
where Python `x and y` is `y` if `x` is truthy, else `x`. -/
def cand (args : List PyVal) : Except String PyVal :=
  match args with
  | [] => .error "IndexError: tuple index out of range"
  | x :: rest => .ok (rest.foldl (fun a y => if a.truthy then y else a) x)

/-- `cor(*args)`: `x = args[0]; for y in args[1:]: x = x or y; return x`,
where Python `x or y` is `x` if `x` is truthy, else `y`. -/
def cor (args : List PyVal) : Except String PyVal :=
  match args with
  | [] => .error "IndexError: tuple index out of range"
  | x :: rest => .ok (rest.foldl (fun a y => if a.truthy then a else y) x)

/-! ## `meerkat/interactive/api/routers/endpoint.py`: `dispatch` -/

/-- A modification record produced by one trigger cycle. Only
`StoreModification`s carry a `backend_only` flag; other modification
kinds (e.g. `DataFrameModification`) never do. Modelled from the spec
for the record shape (`(target_identity, new_value, backend_only)`);
the filtering logic proved about below is `dispatch` in `endpoint.py`. -/
inductive Modification where
  | store (targetId : String) (newValue : PyVal) (backendOnly : Bool)
  | dataframe (targetId : String)
deriving Repr

/-- `isinstance(m, StoreModification)`. -/
def Modification.isStore : Modification → Bool
  | .store _ _ _ => true
  | .dataframe _ => false

/-- `m.backend_only` where non-store modifications have no such mark. -/
def Modification.markedBackendOnly : Modification → Bool
  | .store _ _ b => b
  | .dataframe _ => false

/-- Outcome of `endpoint.partial(**fn_kwargs).run()`: a result with its
modification list, a raised `TriggerError`, or any other exception. -/
inductive RunOutcome where
  | ok (result : PyVal) (modifications : List Modification)
  | triggerError (msg : String)
  | otherError (msg : String)

/-- The record `dispatch` hands to the transport. -/
structure DispatchRecord where
  result : Option PyVal
  modifications : List Modification
  error : Option String
deriving Repr

/-- `dispatch` (`endpoint.py` lines 10-34): run the endpoint; a
`TriggerError` is absorbed into `{result: None, modifications: [],
error: str(e)}`; on success, store modifications flagged
`backend_only` are filtered out and `error` is `None`. Any other
exception propagates to the caller unmodified. -/
def dispatch : RunOutcome → Except String DispatchRecord
  | .triggerError e => .ok ⟨Option.none, [], some e⟩
  | .otherError e => .error e
  | .ok r mods =>
    .ok ⟨some r, mods.filter (fun m => !(m.isStore && m.markedBackendOnly)), Option.none⟩

/-! ## `meerkat/ops/map.py`: `defer`

A user function is modelled by its parameter list (as `inspect.signature`
reports it: ordered names, each with or without a default) together with
its behaviour on positional and keyword arguments. -/

/-- A Python callable: `params` lists `(name, has_default)` in signature
order; `call` is the function body applied to positional values and
keyword `(name, value)` pairs. -/
structure PyFn where
  params : List (String × Bool)
  call : List PyVal → List (String × PyVal) → PyVal

/-- The data argument of `defer`: a single column, or a DataFrame of
named columns. -/
inductive PyData where
  | col (c : List PyVal)
  | df (cols : List (String × List PyVal))

/-- The `inputs` argument: `None` (infer from the signature), a mapping
column-name → keyword-name, a sequence of column names, or a value of
any other type (which `defer` rejects). -/
inductive InputsArg where
  | auto
  | mapping (m : List (String × String))
  | seq (l : List String)
  | invalid

/-- The `outputs` argument: `None`, the string `"single"`, a mapping
output-key → column-name, or a sequence of column names. -/
inductive OutputsArg where
  | noneOut
  | single
  | mapping (m : List (String × String))
  | seq (l : List String)

/-- The `output_type` argument when not `None`: a single type, a mapping
column-name → type, or a sequence of types. -/
inductive OType where
  | ty (t : PyType)
  | map (m : List (String × PyType))
  | seqT (l : List PyType)

/-- Modelled from the spec: `DeferredOp` (`meerkat/block/deferred_block.py`,
not part of the sources at hand) wraps the user function with its bound
positional and keyword input columns. Only the non-batched path
(`is_batched_fn = False`, the default every claim exercises) is modelled:
the block then makes one function call per row. -/
structure DeferredOp where
  fn : PyFn
  args : List (List PyVal)
  kwargs : List (String × List PyVal)

/-- Modelled from the spec: `len(op)` is the common length of the bound
input columns (the spec's invariant that all bound inputs have equal
length). -/
def DeferredOp.length (op : DeferredOp) : Nat :=
  match op.args with
  | c :: _ => c.length
  | [] =>
    match op.kwargs with
    | (_, c) :: _ => c.length
    | [] => 0

/-- Modelled from the spec: `op._get(i)` answers "what is row i" by one
call of the wrapped function on row `i` of every bound input column. -/
def DeferredOp.getRow (op : DeferredOp) (i : Nat) : PyVal :=
  op.fn.call (op.args.map (fun c => c.getD i .none))
    (op.kwargs.map (fun p => (p.1, p.2.getD i .none)))

/-- The `block_index` of a `BlockView` over a deferred block: `None` for
the whole per-row result, a dict key, or a tuple position. -/
inductive BlockIndex where
  | whole
  | key (k : String)
  | pos (i : Nat)
deriving Repr, DecidableEq

/-- Modelled from the spec: a `DeferredColumn`
(`meerkat/columns/deferred/base.py`, not part of the sources at hand) is
a lazy view over a deferred block — here the op plus a `block_index`
selector — together with its declared `output_type`. -/
structure DeferredColumn where
  op : DeferredOp
  blockIndex : BlockIndex
  outputType : PyType

/-- Selecting one column's value out of a per-row function result via the
`block_index`. -/
def selectOut : BlockIndex → PyVal → PyVal
  | .whole, v => v
  | .key k, .dict kvs => (kvs.lookup k).getD .none
  | .key _, _ => .none
  | .pos i, .tuple xs => xs.getD i .none
  | .pos _, _ => .none

/-- What `defer` returns when it does not raise: a single
`DeferredColumn`, or a DataFrame of named `DeferredColumn`s. -/
inductive DeferResult where
  | column (dc : DeferredColumn)
  | frame (cols : List (String × DeferredColumn))

/-- The `inputs is None` branch of `defer` (`map.py` lines 212-224): walk
the function signature in order; a parameter whose name is a column is
bound to that column as a keyword argument; a parameter with no default
and no matching column raises a `ValueError` immediately. -/
def bindParams (cols : List (String × List PyVal)) :
    List (String × Bool) → Except String (List (String × List PyVal))
  | [] => .ok []
  | (name, hasDefault) :: rest =>
    match cols.lookup name with
    | some c => do
      let kwargs ← bindParams cols rest
      .ok ((name, c) :: kwargs)
    | Option.none =>
      if hasDefault then
        bindParams cols rest
      else
        .error ("Non-default argument '" ++ name ++
          "' does not have a corresponding column in the DataFrame. " ++
          "Please provide an `inputs` mapping or pass a lambda function " ++
          "with a different signature.")

/-- `defer`, lines 201-226: prepare the `args`/`kwargs` bound to the
`DeferredOp`. A column is passed as the single positional argument
(`inputs` ignored); for a DataFrame, `inputs` may be a mapping, a
sequence, or `None` (bind by signature); anything else raises. -/
def prepareInputs (data : PyData) (function : PyFn) (inputs : InputsArg) :
    Except String (List (List PyVal) × List (String × List PyVal)) :=
  match data with
  | .col c => .ok ([c], [])
  | .df cols =>
    match inputs with
    | .mapping m => do
      let kwargs ← mapE (fun p => do
        let c ← dictLookup cols p.1
        .ok (p.2, c)) m
      .ok ([], kwargs)
    | .seq l => do
      let args ← mapE (fun colName => dictLookup cols colName) l
      .ok (args, [])
    | .auto => do
      let kwargs ← bindParams cols function.params
      .ok ([], kwargs)
    | .invalid => .error "`inputs` must be a mapping or sequence."

/-- The `output_type` inference of `defer`'s mapping branch (`map.py`
lines 266-269): `{outputs[output_key]: type(col) for output_key, col in
first_row.items()}`. -/
def inferMapTypes (m : List (String × String))
    (kvs : List (String × PyVal)) : Except String OType := do
  let pairs ← mapE (fun p => do
    let colName ← dictLookup m p.1
    Except.ok (colName, PyVal.typeOf p.2)) kvs
  Except.ok (OType.map pairs)

/-- The frame built by `defer`'s mapping branch (`map.py` lines
275-283): one `DeferredColumn` per `outputs` entry, named by the entry's
value, selecting its key, typed by `output_type[outputs[output_key]]`. -/
def buildMappingFrame (op : DeferredOp) (m : List (String × String))
    (tm : List (String × PyType)) : Except String DeferResult := do
  let cols ← mapE (fun p => do
    let cn ← dictLookup m p.1
    let t ← dictLookup tm cn
    Except.ok (p.2, DeferredColumn.mk op (.key p.1) t)) m
  .ok (.frame cols)

/-- The frame built by `defer`'s sequence branch (`map.py` lines
291-299): one `DeferredColumn` per enumerated `outputs` entry, named by
the entry, selecting its position, typed by `output_type[output_key]`. -/
def buildSeqFrame (op : DeferredOp) (l : List String)
    (ts : List PyType) : Except String DeferResult := do
  let cols ← mapE (fun p => do
    let t ← listGet ts p.1
    Except.ok (p.2, DeferredColumn.mk op (.pos p.1) t)) l.enum
  .ok (.frame cols)

/-- `defer` (`map.py` lines 72-299). Builds the `DeferredOp`, probes row 0
when the data is non-empty, infers `outputs` from a probed dict or tuple,
and returns either a single `DeferredColumn` (`outputs` `None`/"single")
or a DataFrame of `DeferredColumn`s (`outputs` a mapping or sequence),
inferring missing output types from the probed row. -/
def defer (data : PyData) (function : PyFn) (inputs : InputsArg)
    (outputs : OutputsArg) (outputType : Option OType) :
    Except String DeferResult := do
  let (args, kwargs) ← prepareInputs data function inputs
  let op : DeferredOp := ⟨function, args, kwargs⟩
  let firstRow : Option PyVal :=
    if 0 < op.length then some (op.getRow 0) else Option.none
  let outputs : OutputsArg :=
    match outputs, firstRow with
    | .noneOut, some (.dict kvs) => .mapping (kvs.map (fun p => (p.1, p.1)))
    | .noneOut, some (.tuple xs) => .seq ((List.range xs.length).map toString)
    | o, _ => o
  match outputs with
  | .noneOut | .single =>
    let outputType : Option OType :=
      match outputType, firstRow with
      | Option.none, some v => some (.ty v.typeOf)
      | ot, _ => ot
    match outputType with
    | some (.ty t) => .ok (.column ⟨op, .whole, t⟩)
    | _ => .error "Must provide a single `output_type` if `outputs` is None."
  | .mapping m => do
    let ot ← match outputType with
      | some ot => Except.ok ot
      | Option.none =>
        match firstRow with
        | some (.dict kvs) => inferMapTypes m kvs
        | _ => Except.error "AttributeError: first row has no .items()"
    match ot with
    | .map tm => buildMappingFrame op m tm
    | _ => .error "Must provide a `output_type` mapping if `outputs` is a mapping."
  | .seq l => do
    let ot ← match outputType with
      | some ot => Except.ok ot
      | Option.none =>
        match firstRow with
        | some (.tuple xs) => Except.ok (OType.seqT (xs.map PyVal.typeOf))
        | _ => Except.error "TypeError: first row is not iterable"
    match ot with
    | .seqT ts => buildSeqFrame op l ts
    | _ => .error "Must provide a `output_type` sequence if `outputs` is a sequence."

/-! ## `meerkat/ops/map.py`: `_materialize`, local mode (lines 526-534)

Local materialization iterates `range(0, len(data), batch_size)`, fetches
the slice `[batch_start, batch_start + batch_size)` of the deferred
column for each start, and concatenates the batches. -/

/-- The row indices selected by the Python slice `[start, stop, 1)` of a
sequence of length `n` (both ends clipped to `n`). -/
def sliceIndices (n start stop : Nat) : List Nat :=
  List.range' start (min stop n - start)

/-- Modelled from the spec: `DeferredColumn._get(slice, materialize=True)`
(`meerkat/columns/deferred/base.py`, not part of the sources at hand)
fetches the requested rows from the deferred block — one function call
per row on the non-batched path — and selects this column's part of each
per-row result. -/
def DeferredColumn.getSlice (col : DeferredColumn) (start stop : Nat) :
    List PyVal :=
  (sliceIndices col.op.length start stop).map
    (fun i => selectOut col.blockIndex (col.op.getRow i))

/-- The number of batch starts `range(0, n, bs)` yields for `bs ≥ 1`:
`ceil(n / bs)`. -/
def numBatches (n bs : Nat) : Nat := (n + bs - 1) / bs

/-- `_materialize` local mode: concatenate the slices
`[k * bs, k * bs + bs)` for each batch start. `concat`
(`meerkat/ops/concat.py`, not part of the sources at hand) is modelled
from the spec as list concatenation of the fetched batches. -/
def materializeLocal (col : DeferredColumn) (bs : Nat) : List PyVal :=
  ((List.range (numBatches col.op.length bs)).map
    (fun k => col.getSlice (k * bs) (k * bs + bs))).flatten

/-! ## `meerkat/ops/map.py`: `_materialize`, ray mode (lines 461-524)

The distributed path walks backward from the requested column through the
chain of argument bindings, collecting the per-hop functions, and requires
the chain to end in a `ScalarColumn`. The output type tag of the top
column selects how partitions are reassembled. -/

/-- The declared output type of the requested column, as the ray branch
matches on it (`mk.NumPyTensorColumn`, `mk.TorchTensorColumn`,
`mk.ObjectColumn`, the `ScalarColumn` `return_format` case, or anything
else, which is unsupported). -/
inductive OutTag where
  | numpyTensor
  | torchTensor
  | objectT
  | scalarT
  | otherT
deriving Repr, DecidableEq

/-- A column as the ray materializer sees it: a `ScalarColumn` base, some
other (unsupported) base column, or a `DeferredColumn` whose op binds
argument and keyword-argument columns. -/
inductive MatData where
  | scalar (data : List PyVal)
  | otherCol (desc : String)
  | deferredC (fn : PyFn) (args : List MatData)
      (kwargs : List (String × MatData)) (tag : OutTag)

/-- Step 1 of the ray branch: walk backward through the deferred columns,
appending each hop's function. A hop with two or more positional args,
or none and two or more keyword args, or no bound inputs at all, raises;
positional args are checked first and, when exactly one is present, any
keyword args are ignored. A walk ending in a non-`ScalarColumn` base
raises. -/
def walkChain : MatData → List PyFn → Except String (List PyFn × List PyVal)
  | .deferredC fn args kwargs _, acc =>
    match args with
    | [a] => walkChain a (acc ++ [fn])
    | _ :: _ :: _ => .error "Multiple args not supported."
    | [] =>
      match kwargs with
      | [] => .error "No args or kwargs."
      | [p] => walkChain p.2 (acc ++ [fn])
      | _ :: _ :: _ => .error "Multiple kwargs not supported."
  | .scalar d, acc => .ok (acc, d)
  | .otherCol desc, _ =>
    .error ("Base column is of unsupported type " ++ desc ++ ".")

/-- `data.output_type` as the ray branch reads it off the requested
column. -/
def MatData.outTagE : MatData → Except String OutTag
  | .deferredC _ _ _ t => .ok t
  | _ => .error "AttributeError: column has no attribute output_type"

/-- The ray branch of `_materialize`: collect the chain of functions and
the base column data (step 1-2), replay the functions in forward order
over every row (step 3), and reassemble by the declared output type
(step 4). The pandas wrap of the base and the appended unwrap function
cancel, and the spec's Materializer contract states the partitioned
replay preserves row order across partitions, so steps 2-4 are modelled
as an in-order map over the base rows. -/
def rayMaterialize (data : MatData) : Except String (List PyVal) := do
  let (fns, base) ← walkChain data []
  let rows := base.map (fun v => fns.reverse.foldl (fun x fn => fn.call [x] []) v)
  let tag ← data.outTagE
  match tag with
  | .numpyTensor | .torchTensor | .objectT | .scalarT => .ok rows
  | .otherT => .error "Unsupported output type."

/-- The deferred nodes the backward walk visits, following the same
single-successor rule as `walkChain` and stopping where it stops. -/
def chainNodes : MatData → List MatData
  | .deferredC fn args kwargs t =>
    .deferredC fn args kwargs t ::
      (match args with
      | [a] => chainNodes a
      | _ :: _ :: _ => []
      | [] =>
        match kwargs with
        | [p] => chainNodes p.2
        | _ => [])
  | _ => []

/-- The base column the backward walk terminates in, when every hop has a
unique successor. -/
def chainBase : MatData → Option MatData
  | .deferredC _ args kwargs _ =>
    (match args with
    | [a] => chainBase a
    | _ :: _ :: _ => Option.none
    | [] =>
      match kwargs with
      | [p] => chainBase p.2
      | _ => Option.none)
  | base => some base

/-- A hop the walk in the code rejects: two or more positional args, or
no positional args and two or more keyword args, or no bound inputs. -/
def nodeBindsBadly : MatData → Bool
  | .deferredC _ args kwargs _ =>
    decide (1 < args.length) ||
      (args.isEmpty && decide (1 < kwargs.length)) ||
      (args.isEmpty && kwargs.isEmpty)
  | _ => false

/-- The claim's literal condition on a hop, written from the claim's
words for comparison with the code's behaviour: more than one positional
argument, or more than one keyword argument, or neither args nor
kwargs. -/
def nodeBadPerClaim : MatData → Bool
  | .deferredC _ args kwargs _ =>
    decide (1 < args.length) ||
      decide (1 < kwargs.length) ||
      (args.isEmpty && kwargs.isEmpty)
  | _ => false

/-! ## `meerkat/ops/sort.py`: `sort`

Columns that `sort` compares are modelled over `Int` (the result of
`to_numpy()` on a scalar column, negated for a descending key). The
single-column branch delegates to the column's `argsort`, a storage
backend method (not part of the sources at hand; the spec treats storage
as an external collaborator), so `argsort` is an explicit parameter of
the model. -/

/-- The `by` argument: a single column name or a list of names
(normalized by `by = [by] if isinstance(by, str) else by`). -/
inductive ByArg where
  | str (s : String)
  | list (l : List String)

/-- The `ascending` argument: a scalar bool or a list of bools. -/
inductive AscArg where
  | bool (b : Bool)
  | list (l : List Bool)

/-- Lexicographic comparison of equal-length key tuples (primary key
first), ties broken as equal. -/
def lexLe : List Int → List Int → Bool
  | [], _ => true
  | _ :: _, [] => false
  | x :: xs, y :: ys => if x = y then lexLe xs ys else decide (x < y)

/-- `np.lexsort(keys)`: a stable permutation of `range(n)` ordering the
key tuples read off the keys last-to-first (the last key is primary). -/
def lexsort (keys : List (List Int)) (n : Nat) : List Nat :=
  (List.range n).mergeSort
    (fun i j => lexLe (keys.reverse.map (fun k => k.getD i 0))
      (keys.reverse.map (fun k => k.getD j 0)))

/-- The number of rows of the sorted DataFrame (all columns share it). -/
def dataLen (data : List (String × List Int)) : Nat :=
  match data with
  | [] => 0
  | (_, c) :: _ => c.length

/-- `data.lz[sorted_indices]`: every column viewed through the index
permutation. -/
def takeRows (data : List (String × List Int)) (idx : List Nat) :
    List (String × List Int) :=
  data.map (fun p => (p.1, idx.map (fun i => p.2.getD i 0)))

/-- The key list of the multi-column branch of `sort` (`sort.py` lines
45-47): for each sort column (walked in reverse, paired with its
`ascending` flag), its values negated when descending. -/
def buildSortKeys (data : List (String × List Int))
    (pairs : List (String × Bool)) : Except String (List (List Int)) :=
  mapE (fun p => do
    let c ← dictLookup data p.1
    Except.ok (c.map (fun x => x * (if p.2 then 1 else -1)))) pairs

/-- `sort` (`sort.py` lines 10-53): normalize `by` to a list; with more
than one sort column, broadcast a scalar `ascending`, raise a
`ValueError` on a list-length mismatch, build negated keys for
descending columns and lexsort; with a single sort column, delegate to
the column's `argsort` with `ascending` passed through unchecked. -/
def sortOp (data : List (String × List Int)) (byArg : ByArg)
    (ascending : AscArg) (argsort : List Int → AscArg → List Nat) :
    Except String (List (String × List Int)) :=
  let byList := match byArg with | .str s => [s] | .list l => l
  if 1 < byList.length then
    let asc := match ascending with
      | .bool b => List.replicate byList.length b
      | .list l => l
    if asc.length ≠ byList.length then
      .error ("Length of `ascending` (" ++ toString asc.length ++
        ") must be the same as length of `by` (" ++
        toString byList.length ++ ").")
    else do
      let keys ← buildSortKeys data (byList.reverse.zip asc.reverse)
      .ok (takeRows data (lexsort keys (dataLen data)))
  else
    match byList with
    | [] => .error "IndexError: list index out of range"
    | b0 :: _ => do
      let c ← dictLookup data b0
      .ok (takeRows data (argsort c ascending))

/-! ## Concrete example inputs used by witnesses and counterexamples -/

/-- `lambda x: x * 2` as a `PyFn`. -/
def fDouble : PyFn :=
  ⟨[("x", false)],
    fun args _ => match args with | [.int n] => .int (2 * n) | _ => .none⟩

/-- The example source column `[1, 2, 3]`. -/
def cOneTwoThree : List PyVal := [.int 1, .int 2, .int 3]

/-- The deferred column `defer([1,2,3], lambda x: x * 2)` evaluates to. -/
def dcDouble : DeferredColumn := ⟨⟨fDouble, [cOneTwoThree], []⟩, .whole, .intT⟩

/-- `lambda x, y: x + y` as a `PyFn` bound by keyword. -/
def fXY : PyFn :=
  ⟨[("x", false), ("y", false)],
    fun _ kwargs =>
      match kwargs.lookup "x", kwargs.lookup "y" with
      | some (.int a), some (.int b) => .int (a + b)
      | _, _ => .none⟩

/-- A function requiring a parameter `z` with no default. -/
def fNeedsZ : PyFn := ⟨[("z", false)], fun _ _ => .none⟩

/-- The example frame with columns `x = [1,2,3]` and `y = [10,20,30]`. -/
def dfXY : List (String × List PyVal) :=
  [("x", [.int 1, .int 2, .int 3]), ("y", [.int 10, .int 20, .int 30])]

/-- Whether a per-row result is a dict or a tuple. -/
def isDictOrTuple : PyVal → Bool
  | .dict _ => true
  | .tuple _ => true
  | _ => false

/-- `lambda x: (x, x)` as a `PyFn`. -/
def fPair : PyFn :=
  ⟨[("x", false)],
    fun args _ => match args with | [v] => .tuple [v, v] | _ => .none⟩

/-- `lambda x: {"a": x, "b": x * 2}` as a `PyFn` (dict keys `a`, `b`). -/
def fDict : PyFn :=
  ⟨[("x", false)],
    fun args _ =>
      match args with
      | [.int n] => .dict [("a", .int n), ("b", .int (2 * n))]
      | _ => .none⟩

/-- The example source column `[1, 2]`. -/
def cOneTwo : List PyVal := [.int 1, .int 2]

/-- A deferred column binding one positional argument and two keyword
arguments at the same hop, over a scalar base. The claim's literal
condition flags this hop; the walk in the code follows the positional
argument and ignores the keyword arguments. -/
def c6BadNode : MatData :=
  .deferredC fDouble [.scalar [.int 1, .int 2]]
    [("a", .scalar [.int 3]), ("b", .scalar [.int 4])] .numpyTensor

/-- A deferred column binding two positional arguments (two independent
base columns) — the unsupported topology of the amended claim. -/
def c6TwoArgs : MatData :=
  .deferredC fDouble [.scalar [.int 1], .scalar [.int 2]] [] .numpyTensor

/-- A one-column frame of ints for the sort counterexample. -/
def dfSortEx : List (String × List Int) := [("a", [3, 1, 2])]

/-- A trivial `argsort` backend: the identity permutation. -/
def argsortId : List Int → AscArg → List Nat := fun c _ => List.range c.length

/-- A two-column frame of ints for the sort witness. -/
def dfSortTwo : List (String × List Int) := [("a", [1, 2]), ("b", [3, 4])]

/-! ## Theorems -/

/-- `getD` of a map over `range`. -/
theorem getD_map_range {α : Type} (g : Nat → α) (n i : Nat) (hi : i < n)
    (d : α) : ((List.range n).map g).getD i d = g i := by
  rw [List.getD_eq_getElem?_getD, List.getElem?_map, List.getElem?_range hi]
  rfl

/-- Folding Python `and` over the tail sticks at a falsy accumulator. -/
theorem foldl_and_falsy (x : PyVal) (rest : List PyVal)
    (hx : x.truthy = false) :
    rest.foldl (fun a y => if a.truthy then y else a) x = x := by
  induction rest with
  | nil => rfl
  | cons y ys ih => simpa [hx] using ih

/-- Folding Python `or` over the tail sticks at a truthy accumulator. -/
theorem foldl_or_truthy (x : PyVal) (rest : List PyVal)
    (hx : x.truthy = true) :
    rest.foldl (fun a y => if a.truthy then a else y) x = x := by
  induction rest with
  | nil => rfl
  | cons y ys ih => simpa [hx] using ih

/-- `cand` on a non-empty list returns the first falsy argument, else the
last argument. -/
theorem cand_eq_first_falsy (x : PyVal) (rest : List PyVal) :
    cand (x :: rest)
      = .ok (((x :: rest).find? (fun v => !v.truthy)).getD
          ((x :: rest).getLast (by simp))) := by
  induction rest generalizing x with
  | nil => cases hx : x.truthy <;> simp [cand, List.find?, hx]
  | cons y ys ih =>
    cases hx : x.truthy
    · simp [cand, List.find?, hx, foldl_and_falsy x _ hx]
    · have := ih y
      simp only [cand, Except.ok.injEq] at this ⊢
      have hxy : (if x.truthy = true then y else x) = y := by simp [hx]
      rw [List.foldl_cons, hxy, this]
      simp [List.find?, hx, List.getLast_cons]

/-- `cor` on a non-empty list returns the first truthy argument, else the
last argument. -/
theorem cor_eq_first_truthy (x : PyVal) (rest : List PyVal) :
    cor (x :: rest)
      = .ok (((x :: rest).find? PyVal.truthy).getD
          ((x :: rest).getLast (by simp))) := by
  induction rest generalizing x with
  | nil => cases hx : x.truthy <;> simp [cor, List.find?, hx]
  | cons y ys ih =>
    cases hx : x.truthy
    · have := ih y
      simp only [cor, Except.ok.injEq] at this ⊢
      have hxy : (if x.truthy = true then x else y) = y := by simp [hx]
      rw [List.foldl_cons, hxy, this]
      simp [List.find?, hx, List.getLast_cons]
    · simp [cor, List.find?, hx, foldl_or_truthy x _ hx]

/-- C10: the reactive boolean helpers fold with Python truthiness: for a
non-empty argument list, `cand` returns the first falsy argument if one
exists and otherwise the last argument, and `cor` returns the first
truthy argument if one exists and otherwise the last argument; with zero
arguments both raise an `IndexError`. -/
theorem cand_cor_truthiness (args : List PyVal) (h : args ≠ []) :
    cand args = .ok ((args.find? (fun v => !v.truthy)).getD (args.getLast h)) ∧
    cor args = .ok ((args.find? PyVal.truthy).getD (args.getLast h)) ∧
    cand [] = .error "IndexError: tuple index out of range" ∧
    cor [] = .error "IndexError: tuple index out of range" := by
  match args, h with
  | x :: rest, _ =>
    exact ⟨cand_eq_first_falsy x rest, cor_eq_first_truthy x rest, rfl, rfl⟩

/-- Witness for C10 at `args = [0, "", 5]`: the first falsy argument `0`
comes out of `cand`, the first truthy argument `5` out of `cor`. -/
theorem cand_cor_truthiness_witness :
    cand [.int 0, .str "", .int 5] = .ok (.int 0) ∧
    cor [.int 0, .str "", .int 5] = .ok (.int 5) := by
  have h := cand_cor_truthiness [.int 0, .str "", .int 5] (by simp)
  exact ⟨h.1, h.2.1⟩

/-- C2: a `TriggerError` from the endpoint run is absorbed into the
record `{result: None, modifications: [], error: msg}` rather than
re-raised; a successful run yields `error = None` and a modification
list from which every modification marked `backend_only` has been
filtered out. -/
theorem dispatch_trigger_cycle_record (e : String) (r : PyVal)
    (mods : List Modification) :
    dispatch (.triggerError e) = .ok ⟨Option.none, [], some e⟩ ∧
    dispatch (.ok r mods)
      = .ok ⟨some r,
          mods.filter (fun m => !(m.isStore && m.markedBackendOnly)),
          Option.none⟩ ∧
    ∀ m ∈ mods.filter (fun m => !(m.isStore && m.markedBackendOnly)),
      m.markedBackendOnly = false := by
  refine ⟨rfl, rfl, ?_⟩
  intro m hm
  have hp := (List.mem_filter.mp hm).2
  cases m with
  | store i v b =>
    cases b with
    | false => rfl
    | true => simp [Modification.isStore, Modification.markedBackendOnly] at hp
  | dataframe i => rfl

/-- Witness for C2 at a concrete run: a `backend_only` store
modification is dropped, a frontend one kept, and a trigger failure
produces the empty-result record. -/
theorem dispatch_trigger_cycle_record_witness :
    dispatch (.triggerError "boom") = .ok ⟨Option.none, [], some "boom"⟩ ∧
    dispatch (.ok (.int 7) [.store "a" (.int 1) true, .store "b" (.int 2) false])
      = .ok ⟨some (.int 7), [.store "b" (.int 2) false], Option.none⟩ := by
  have h := dispatch_trigger_cycle_record "boom" (.int 7)
    [.store "a" (.int 1) true, .store "b" (.int 2) false]
  exact ⟨h.1, h.2.1⟩

/-- The batch index ranges `[k * bs, min(k * bs + bs, n))` tile the
interval `[0, min(m * bs, n))`. -/
theorem flatten_batch_ranges (bs n m : Nat) :
    ((List.range m).map
      (fun k => List.range' (k * bs) (min (k * bs + bs) n - k * bs))).flatten
      = List.range' 0 (min (m * bs) n) := by
  induction m with
  | zero => simp
  | succ m ih =>
    rw [List.range_succ, List.map_append, List.flatten_append, ih]
    simp only [List.map_cons, List.map_nil, List.flatten_cons,
      List.flatten_nil, List.append_nil]
    rcases Nat.le_total n (m * bs) with h | h
    · have hmin1 : min (m * bs) n = n := by omega
      have hmin2 : min (m * bs + bs) n - m * bs = 0 := by omega
      have hb : (m + 1) * bs = m * bs + bs := by ring
      have hmin3 : min ((m + 1) * bs) n = n := by omega
      rw [hmin1, hmin2, hmin3]
      simp
    · have hmin1 : min (m * bs) n = m * bs := by omega
      have hb : (m + 1) * bs = m * bs + bs := by ring
      have happ := List.range'_append 0 (m * bs)
        (min (m * bs + bs) n - m * bs) 1
      simp only [Nat.one_mul, Nat.zero_add] at happ
      rw [hmin1, happ]
      congr 1
      omega

/-- For `bs ≥ 1`, `ceil(n / bs)` batches of size `bs` cover all `n`
rows. -/
theorem numBatches_cover (n bs : Nat) (hbs : 1 ≤ bs) :
    n ≤ numBatches n bs * bs := by
  unfold numBatches
  rw [Nat.mul_comm]
  have hdm := Nat.div_add_mod (n + bs - 1) bs
  have hlt : (n + bs - 1) % bs < bs := Nat.mod_lt _ (by omega)
  omega

/-- Local materialization with any batch size `bs ≥ 1` is the in-order
map of the per-row evaluation over all rows. -/
theorem materializeLocal_eq (col : DeferredColumn) (bs : Nat)
    (hbs : 1 ≤ bs) :
    materializeLocal col bs
      = (List.range col.op.length).map
          (fun i => selectOut col.blockIndex (col.op.getRow i)) := by
  simp only [materializeLocal, DeferredColumn.getSlice, sliceIndices]
  calc ((List.range (numBatches col.op.length bs)).map
        (fun k => (List.range' (k * bs) (min (k * bs + bs) col.op.length - k * bs)).map
          (fun i => selectOut col.blockIndex (col.op.getRow i)))).flatten
      = (((List.range (numBatches col.op.length bs)).map
          (fun k => List.range' (k * bs) (min (k * bs + bs) col.op.length - k * bs))).map
          (List.map (fun i => selectOut col.blockIndex (col.op.getRow i)))).flatten := by
        rw [List.map_map]
        rfl
    _ = ((List.range (numBatches col.op.length bs)).map
          (fun k => List.range' (k * bs) (min (k * bs + bs) col.op.length - k * bs))).flatten.map
          (fun i => selectOut col.blockIndex (col.op.getRow i)) := by
        rw [List.map_flatten]
    _ = (List.range' 0 (min (numBatches col.op.length bs * bs) col.op.length)).map
          (fun i => selectOut col.blockIndex (col.op.getRow i)) := by
        rw [flatten_batch_ranges]
    _ = (List.range col.op.length).map
          (fun i => selectOut col.blockIndex (col.op.getRow i)) := by
        have hcov := numBatches_cover col.op.length bs hbs
        have hmin : min (numBatches col.op.length bs * bs) col.op.length
            = col.op.length := by omega
        rw [hmin, ← List.range_eq_range']

/-- C5: batch-size invariance — local materialization of a deferred
column produces the same concrete output, row for row, for every pair of
batch sizes `b1, b2 ≥ 1`. -/
theorem batch_size_invariance (col : DeferredColumn) (b1 b2 : Nat)
    (h1 : 1 ≤ b1) (h2 : 1 ≤ b2) :
    materializeLocal col b1 = materializeLocal col b2 := by
  rw [materializeLocal_eq col b1 h1, materializeLocal_eq col b2 h2]

/-- Witness for C5: materializing `defer([1,2,3], x * 2)` with batch
sizes 2 and 3 agrees. -/
theorem batch_size_invariance_witness :
    materializeLocal dcDouble 2 = materializeLocal dcDouble 3 :=
  batch_size_invariance dcDouble 2 3 (by decide) (by decide)

/-- The mapping branch of `defer` never returns a single column. -/
theorem buildMappingFrame_ne_column (op : DeferredOp)
    (m : List (String × String)) (tm : List (String × PyType))
    (dc : DeferredColumn) :
    buildMappingFrame op m tm ≠ .ok (.column dc) := by
  intro hcontra
  unfold buildMappingFrame at hcontra
  simp only [bind, Except.bind] at hcontra
  split at hcontra
  · simp at hcontra
  · simp at hcontra

/-- The sequence branch of `defer` never returns a single column. -/
theorem buildSeqFrame_ne_column (op : DeferredOp) (l : List String)
    (ts : List PyType) (dc : DeferredColumn) :
    buildSeqFrame op l ts ≠ .ok (.column dc) := by
  intro hcontra
  unfold buildSeqFrame at hcontra
  simp only [bind, Except.bind] at hcontra
  split at hcontra
  · simp at hcontra
  · simp at hcontra

/-- `defer` on a column, with `outputs=None`, that returns a single
`DeferredColumn` built it over the op binding that column positionally,
with the whole per-row result selected. -/
theorem deferCol_shape (c : List PyVal) (f : PyFn) (dc : DeferredColumn)
    (hdef : defer (.col c) f .auto .noneOut Option.none
      = .ok (.column dc)) :
    dc.op = ⟨f, [c], []⟩ ∧ dc.blockIndex = .whole := by
  unfold defer prepareInputs at hdef
  simp only [bind, Except.bind] at hdef
  by_cases hlen : 0 < (DeferredOp.mk f [c] []).length
  · simp only [hlen, if_true] at hdef
    cases hrow : (DeferredOp.mk f [c] []).getRow 0 with
    | dict kvs =>
      rw [hrow] at hdef
      simp only [bind, Except.bind] at hdef
      repeat' split at hdef
      all_goals
        first
        | exact absurd hdef (buildMappingFrame_ne_column _ _ _ _)
        | simp at hdef
    | tuple xs =>
      rw [hrow] at hdef
      simp only [bind, Except.bind] at hdef
      exact absurd hdef (buildSeqFrame_ne_column _ _ _ _)
    | none => rw [hrow] at hdef; cases hdef; exact ⟨rfl, rfl⟩
    | bool b => rw [hrow] at hdef; cases hdef; exact ⟨rfl, rfl⟩
    | int n => rw [hrow] at hdef; cases hdef; exact ⟨rfl, rfl⟩
    | str s => rw [hrow] at hdef; cases hdef; exact ⟨rfl, rfl⟩
  · simp only [hlen, if_false] at hdef
    cases hdef

/-- C1: row correspondence — for a non-empty source column `c` and
function `f`, locally materializing the `DeferredColumn` returned by
`defer(c, f)` with any batch size `bs ≥ 1` yields at each row `i < len(c)`
exactly `f(c[i])`. -/
theorem row_correspondence (c : List PyVal) (f : PyFn) (bs i : Nat)
    (dc : DeferredColumn) (hbs : 1 ≤ bs) (hi : i < c.length)
    (hdef : defer (.col c) f .auto .noneOut Option.none
      = .ok (.column dc)) :
    (materializeLocal dc bs).getD i .none = f.call [c.getD i .none] [] := by
  obtain ⟨hop, hbi⟩ := deferCol_shape c f dc hdef
  rw [materializeLocal_eq dc bs hbs, hop, hbi]
  exact getD_map_range _ c.length i hi PyVal.none

/-- Witness for C1, the spec's end-to-end example: `defer([1,2,3],
x * 2)` materializes to `[2,4,6]`; row 1 of the materialized column is
`4 = f(2)`. -/
theorem row_correspondence_witness :
    (materializeLocal dcDouble 1).getD 1 .none = .int 4 :=
  row_correspondence cOneTwoThree fDouble 1 1 dcDouble (by decide)
    (by decide) rfl

/-- C4 counterexample: on empty data with `outputs=None` and no explicit
`output_type`, `defer` raises the cannot-infer error already at
construction time — the `defer` call itself returns the `ValueError`, so
no deferred column ever exists to materialize, refuting
"raised at the first materialization attempt, not at construction
time". -/
theorem inference_error_timing_counterexample :
    defer (.col []) fDouble .auto .noneOut Option.none
      = .error "Must provide a single `output_type` if `outputs` is None." :=
  rfl

/-- C4 amended: for every `defer` call on empty data with `outputs=None`
and no explicit `output_type`, the cannot-infer-output-type `ValueError`
is raised at construction time, by the `defer` call itself (`map.py`
lines 251-259); no deferred column is returned to materialize later. -/
theorem inference_error_at_construction (data : PyData) (f : PyFn)
    (inputs : InputsArg) (args : List (List PyVal))
    (kwargs : List (String × List PyVal))
    (hprep : prepareInputs data f inputs = .ok (args, kwargs))
    (hlen : (DeferredOp.mk f args kwargs).length = 0) :
    defer data f inputs .noneOut Option.none
      = .error "Must provide a single `output_type` if `outputs` is None." := by
  unfold defer
  rw [hprep]
  simp only [bind, Except.bind]
  simp [hlen]

/-- Witness for the amended C4 at the empty column. -/
theorem inference_error_at_construction_witness :
    defer (.col ([] : List PyVal)) fDouble .auto .noneOut Option.none
      = .error "Must provide a single `output_type` if `outputs` is None." :=
  inference_error_at_construction (.col []) fDouble .auto [[]] [] rfl rfl

/-- `bindParams` keeps every signature parameter whose name is a column,
bound to that column. -/
theorem bindParams_binds (cols : List (String × List PyVal))
    (params : List (String × Bool)) (kwargs : List (String × List PyVal))
    (hok : bindParams cols params = .ok kwargs) :
    ∀ name hd, (name, hd) ∈ params → (cols.lookup name).isSome = true →
      kwargs.lookup name = cols.lookup name := by
  induction params generalizing kwargs with
  | nil => intro name hd hmem; cases hmem
  | cons p rest ih =>
    obtain ⟨pname, phd⟩ := p
    intro name hd hmem hsome
    unfold bindParams at hok
    cases hlook : cols.lookup pname with
    | some c =>
      rw [hlook] at hok
      simp only [bind, Except.bind] at hok
      cases hrest : bindParams cols rest with
      | error e => rw [hrest] at hok; cases hok
      | ok kw =>
        rw [hrest] at hok
        cases hok
        rw [List.lookup_cons]
        cases hbe : name == pname with
        | true =>
          have : name = pname := by simpa using hbe
          subst this
          rw [hlook]
        | false =>
          rcases List.mem_cons.mp hmem with heq | hmem2
          · have : name = pname := congrArg Prod.fst heq
            subst this
            simp at hbe
          · exact ih kw hrest name hd hmem2 hsome
    | none =>
      rw [hlook] at hok
      rcases List.mem_cons.mp hmem with heq | hmem2
      · have hn : name = pname := congrArg Prod.fst heq
        subst hn
        rw [hlook] at hsome
        cases hsome
      · cases phd with
        | true => exact ih kwargs hok name hd hmem2 hsome
        | false => cases hok

/-- `bindParams` raises when a parameter with no default has no
same-named column. -/
theorem bindParams_missing (cols : List (String × List PyVal))
    (params : List (String × Bool)) (p : String × Bool)
    (hp : p ∈ params) (hnd : p.2 = false)
    (hmiss : cols.lookup p.1 = Option.none) :
    isErr (bindParams cols params) = true := by
  induction params with
  | nil => cases hp
  | cons q rest ih =>
    obtain ⟨qname, qhd⟩ := q
    unfold bindParams
    cases hlook : cols.lookup qname with
    | some c =>
      simp only [bind, Except.bind]
      cases hrest : bindParams cols rest with
      | error e => rfl
      | ok kw =>
        rcases List.mem_cons.mp hp with heq | hmem2
        · have : p.1 = qname := congrArg Prod.fst heq
          rw [this, hlook] at hmiss
          cases hmiss
        · have := ih hmem2
          rw [hrest] at this
          cases this
    | none =>
      rcases List.mem_cons.mp hp with heq | hmem2
      · have h1 : qhd = p.2 := (congrArg Prod.snd heq).symm
        rw [hnd] at h1
        rw [h1]
        rfl
      · cases qhd with
        | true => exact ih hmem2
        | false => rfl

/-- An error in input preparation propagates out of `defer` unchanged in
kind. -/
theorem defer_prepError (data : PyData) (f : PyFn) (inputs : InputsArg)
    (outputs : OutputsArg) (ot : Option OType)
    (h : isErr (prepareInputs data f inputs) = true) :
    isErr (defer data f inputs outputs ot) = true := by
  unfold defer
  cases hprep : prepareInputs data f inputs with
  | error e => rfl
  | ok v => rw [hprep] at h; cases h

/-- C7: with `inputs=None` on a DataFrame, each function parameter whose
name matches a column is bound to that column as a keyword argument; a
parameter with no default and no same-named column makes `defer` raise a
`ValueError` during input preparation, before any row is evaluated; and
an `inputs` value that is neither a mapping nor a sequence also makes
`defer` raise a `ValueError`. -/
theorem missing_required_input (cols : List (String × List PyVal))
    (f : PyFn) (outputs : OutputsArg) (ot : Option OType) :
    (∀ args kwargs,
      prepareInputs (.df cols) f .auto = .ok (args, kwargs) →
        args = [] ∧
        ∀ name hd, (name, hd) ∈ f.params →
          (cols.lookup name).isSome = true →
          kwargs.lookup name = cols.lookup name) ∧
    (∀ p, p ∈ f.params → p.2 = false → cols.lookup p.1 = Option.none →
      isErr (defer (.df cols) f .auto outputs ot) = true) ∧
    isErr (defer (.df cols) f .invalid outputs ot) = true := by
  refine ⟨?_, ?_, ?_⟩
  · intro args kwargs hok
    unfold prepareInputs at hok
    simp only [bind, Except.bind] at hok
    cases hbp : bindParams cols f.params with
    | error e => rw [hbp] at hok; cases hok
    | ok kw =>
      rw [hbp] at hok
      cases hok
      exact ⟨rfl, bindParams_binds cols f.params _ hbp⟩
  · intro p hp hnd hmiss
    apply defer_prepError
    unfold prepareInputs
    simp only [bind, Except.bind]
    have := bindParams_missing cols f.params p hp hnd hmiss
    cases hbp : bindParams cols f.params with
    | error e => rfl
    | ok kw => rw [hbp] at this; cases this
  · rfl

/-- Witness for C7: on the example frame, `x` is bound to its column;
a required `z` with no column raises; a non-mapping non-sequence
`inputs` raises. -/
theorem missing_required_input_witness :
    dfXY.lookup "x" = dfXY.lookup "x" ∧
    isErr (defer (.df dfXY) fNeedsZ .auto .noneOut Option.none) = true ∧
    isErr (defer (.df dfXY) fXY .invalid .noneOut Option.none) = true := by
  refine ⟨?_, ?_, ?_⟩
  · exact ((missing_required_input dfXY fXY .noneOut Option.none).1
      [] dfXY rfl).2 "x" false (by decide) (by decide)
  · exact (missing_required_input dfXY fNeedsZ .noneOut Option.none).2.1
      ("z", false) (by decide) rfl rfl
  · exact (missing_required_input dfXY fXY .noneOut Option.none).2.2

/-- `mapE` succeeds pointwise. -/
theorem mapE_ok {α β : Type} (f : α → Except String β) (g : α → β)
    (l : List α) (h : ∀ a ∈ l, f a = .ok (g a)) :
    mapE f l = .ok (l.map g) := by
  induction l with
  | nil => rfl
  | cons a as ih =>
    unfold mapE
    rw [h a (List.mem_cons_self a as)]
    simp only [bind, Except.bind]
    rw [ih (fun b hb => h b (List.mem_cons_of_mem a hb))]
    rfl

/-- `mapE` over a mapped list. -/
theorem mapE_map {α β γ : Type} (f : β → Except String γ) (g : α → β)
    (l : List α) : mapE f (l.map g) = mapE (fun a => f (g a)) l := by
  induction l with
  | nil => rfl
  | cons a as ih =>
    unfold mapE
    simp only [List.map_cons]
    rw [ih]

/-- Looking a key up in the diagonal mapping `{k: k for k in kvs}`. -/
theorem lookup_diag (kvs : List (String × PyVal)) (k : String) (v : PyVal)
    (hmem : (k, v) ∈ kvs) :
    (kvs.map (fun p => (p.1, p.1))).lookup k = some k := by
  induction kvs with
  | nil => cases hmem
  | cons q rest ih =>
    simp only [List.map_cons, List.lookup_cons]
    cases hbe : k == q.1 with
    | true =>
      have hk : k = q.1 := by simpa using hbe
      subst hk
      rfl
    | false =>
      rcases List.mem_cons.mp hmem with heq | h2
      · have hk : k = q.1 := congrArg Prod.fst heq
        rw [← hk] at hbe
        simp at hbe
      · exact ih h2

/-- Looking a key up in `{k: type(v) for k, v in kvs}` when the keys are
distinct. -/
theorem lookup_typeMap (kvs : List (String × PyVal)) (k : String)
    (v : PyVal) (hmem : (k, v) ∈ kvs)
    (hnd : (kvs.map Prod.fst).Nodup) :
    (kvs.map (fun p => (p.1, PyVal.typeOf p.2))).lookup k
      = some v.typeOf := by
  induction kvs with
  | nil => cases hmem
  | cons q rest ih =>
    simp only [List.map_cons, List.lookup_cons]
    simp only [List.map_cons, List.nodup_cons] at hnd
    rcases List.mem_cons.mp hmem with heq | h2
    · subst heq
      simp
    · cases hbe : k == q.1 with
      | true =>
        have hk : k = q.1 := by simpa using hbe
        have hin : k ∈ rest.map Prod.fst :=
          List.mem_map.mpr ⟨(k, v), h2, rfl⟩
        rw [hk] at hin
        exact absurd hin hnd.1
      | false => exact ih h2 hnd.2

/-- `enumFrom s` of `range' s k` pairs each index with itself. -/
theorem enumFrom_range' (k : Nat) : ∀ s,
    List.enumFrom s (List.range' s k)
      = (List.range' s k).map (fun i => (i, i)) := by
  induction k with
  | zero => intro s; rfl
  | succ k ih =>
    intro s
    rw [List.range'_succ]
    simp only [List.enumFrom_cons, List.map_cons]
    rw [ih (s + 1)]

/-- `enumerate` of a mapped `range` pairs each index with its image. -/
theorem enum_map_range {α : Type} (f : Nat → α) (k : Nat) :
    ((List.range k).map f).enum
      = (List.range k).map (fun i => (i, f i)) := by
  have h1 : (List.range k).enum = (List.range k).map (fun i => (i, i)) := by
    rw [List.range_eq_range']
    exact enumFrom_range' k 0
  rw [List.enum_map, h1, List.map_map]
  rfl

/-- The inferred output-type mapping over the diagonal `outputs`. -/
theorem inferMapTypes_diag (kvs : List (String × PyVal)) :
    inferMapTypes (kvs.map (fun p => (p.1, p.1))) kvs
      = .ok (.map (kvs.map (fun p => (p.1, PyVal.typeOf p.2)))) := by
  unfold inferMapTypes
  have hpoint : ∀ p ∈ kvs,
      (do
        let colName ← dictLookup (kvs.map (fun p => (p.1, p.1))) p.1
        Except.ok (colName, PyVal.typeOf p.2)
        : Except String (String × PyType))
        = Except.ok (p.1, PyVal.typeOf p.2) := by
    intro p hp
    simp only [bind, Except.bind]
    unfold dictLookup
    rw [lookup_diag kvs p.1 p.2 hp]
  rw [mapE_ok _ _ kvs hpoint]
  rfl

/-- The mapping branch's frame over the diagonal `outputs` and inferred
types: columns named and keyed by the probed dict's keys, typed by the
probed values. -/
theorem buildMappingFrame_diag (op : DeferredOp)
    (kvs : List (String × PyVal)) (hnd : (kvs.map Prod.fst).Nodup) :
    buildMappingFrame op (kvs.map (fun p => (p.1, p.1)))
      (kvs.map (fun p => (p.1, PyVal.typeOf p.2)))
      = .ok (.frame (kvs.map (fun p =>
          (p.1, DeferredColumn.mk op (.key p.1) p.2.typeOf)))) := by
  unfold buildMappingFrame
  rw [mapE_map]
  dsimp only
  have hpoint : ∀ p ∈ kvs,
      (do
        let cn ← dictLookup (kvs.map (fun p => (p.1, p.1))) p.1
        let t ← dictLookup (kvs.map (fun p => (p.1, PyVal.typeOf p.2))) cn
        Except.ok (p.1, DeferredColumn.mk op (.key p.1) t)
        : Except String (String × DeferredColumn))
        = Except.ok (p.1, DeferredColumn.mk op (.key p.1) p.2.typeOf) := by
    intro p hp
    simp only [bind, Except.bind]
    unfold dictLookup
    rw [lookup_diag kvs p.1 p.2 hp]
    dsimp only
    rw [lookup_typeMap kvs p.1 p.2 hp hnd]
  rw [mapE_ok _ _ kvs hpoint]
  rfl

/-- The sequence branch's frame over the stringified-index `outputs` and
the probed tuple's types. -/
theorem buildSeqFrame_types (op : DeferredOp) (xs : List PyVal) :
    buildSeqFrame op ((List.range xs.length).map toString)
      (xs.map PyVal.typeOf)
      = .ok (.frame ((List.range xs.length).map (fun i =>
          (toString i, DeferredColumn.mk op (.pos i)
            ((xs.getD i PyVal.none).typeOf))))) := by
  unfold buildSeqFrame
  rw [enum_map_range, mapE_map]
  dsimp only
  have hpoint : ∀ i ∈ List.range xs.length,
      (do
        let t ← listGet (xs.map PyVal.typeOf) i
        Except.ok (toString i, DeferredColumn.mk op (.pos i) t)
        : Except String (String × DeferredColumn))
        = Except.ok (toString i, DeferredColumn.mk op (.pos i)
            ((xs.getD i PyVal.none).typeOf)) := by
    intro i hi
    have hilt : i < xs.length := List.mem_range.mp hi
    simp only [bind, Except.bind]
    unfold listGet
    have hxs : (xs.map PyVal.typeOf)[i]?
        = some ((xs.getD i PyVal.none).typeOf) := by
      rw [List.getElem?_map, List.getElem?_eq_getElem hilt,
        List.getD_eq_getElem?_getD, List.getElem?_eq_getElem hilt]
      rfl
    rw [hxs]
  rw [mapE_ok _ _ (List.range xs.length) hpoint]
  rfl

/-- C3: output-shape inference — with `outputs=None` on non-empty data,
a probed row-0 dict makes `defer` return a frame whose column names are
exactly the dict's keys (each deferred column selecting its key, typed
by its probed value); a probed row-0 k-tuple makes `defer` return a
frame whose column names are exactly `"0" .. "k-1"`. -/
theorem output_shape_inference (data : PyData) (f : PyFn)
    (inputs : InputsArg) (args : List (List PyVal))
    (kwargs : List (String × List PyVal))
    (hprep : prepareInputs data f inputs = .ok (args, kwargs))
    (hlen : 0 < (DeferredOp.mk f args kwargs).length) :
    (∀ kvs, (DeferredOp.mk f args kwargs).getRow 0 = .dict kvs →
      (kvs.map Prod.fst).Nodup →
      defer data f inputs .noneOut Option.none
        = .ok (.frame (kvs.map (fun p =>
            (p.1, DeferredColumn.mk ⟨f, args, kwargs⟩ (.key p.1)
              p.2.typeOf))))) ∧
    (∀ xs, (DeferredOp.mk f args kwargs).getRow 0 = .tuple xs →
      defer data f inputs .noneOut Option.none
        = .ok (.frame ((List.range xs.length).map (fun i =>
            (toString i, DeferredColumn.mk ⟨f, args, kwargs⟩ (.pos i)
              ((xs.getD i PyVal.none).typeOf)))))) := by
  constructor
  · intro kvs hrow hnd
    unfold defer
    rw [hprep]
    dsimp only [bind, Except.bind]
    rw [if_pos hlen, hrow]
    dsimp only
    rw [inferMapTypes_diag kvs]
    dsimp only
    exact buildMappingFrame_diag ⟨f, args, kwargs⟩ kvs hnd
  · intro xs hrow
    unfold defer
    rw [hprep]
    dsimp only [bind, Except.bind]
    rw [if_pos hlen, hrow]
    dsimp only
    exact buildSeqFrame_types ⟨f, args, kwargs⟩ xs

/-- Witness for C3: `defer([1,2], lambda x: {"a": x, "b": x*2})` yields a
frame with columns exactly `a`, `b`; `defer([1,2], lambda x: (x, x))`
yields a frame with columns exactly `"0"`, `"1"`. -/
theorem output_shape_inference_witness :
    defer (.col cOneTwo) fDict .auto .noneOut Option.none
      = .ok (.frame [("a", ⟨⟨fDict, [cOneTwo], []⟩, .key "a", .intT⟩),
          ("b", ⟨⟨fDict, [cOneTwo], []⟩, .key "b", .intT⟩)]) ∧
    defer (.col cOneTwo) fPair .auto .noneOut Option.none
      = .ok (.frame [("0", ⟨⟨fPair, [cOneTwo], []⟩, .pos 0, .intT⟩),
          ("1", ⟨⟨fPair, [cOneTwo], []⟩, .pos 1, .intT⟩)]) := by
  constructor
  · exact (output_shape_inference (.col cOneTwo) fDict .auto [cOneTwo] []
      rfl (by decide)).1 [("a", .int 1), ("b", .int 2)] rfl (by decide)
  · exact (output_shape_inference (.col cOneTwo) fPair .auto [cOneTwo] []
      rfl (by decide)).2 [.int 1, .int 1] rfl

/-- C8: single-override — with `outputs="single"` on non-empty data
whose probed row-0 result is a dict or tuple, `defer` returns exactly
one `DeferredColumn` (not a frame), typed by the probed row's runtime
type, and materializing it yields the unprocessed per-row dict/tuple at
every row. -/
theorem single_override (data : PyData) (f : PyFn) (inputs : InputsArg)
    (args : List (List PyVal)) (kwargs : List (String × List PyVal))
    (bs i : Nat)
    (hprep : prepareInputs data f inputs = .ok (args, kwargs))
    (hlen : 0 < (DeferredOp.mk f args kwargs).length)
    (_hshape : isDictOrTuple ((DeferredOp.mk f args kwargs).getRow 0) = true)
    (hbs : 1 ≤ bs) (hi : i < (DeferredOp.mk f args kwargs).length) :
    defer data f inputs .single Option.none
      = .ok (.column ⟨⟨f, args, kwargs⟩, .whole,
          ((DeferredOp.mk f args kwargs).getRow 0).typeOf⟩) ∧
    (materializeLocal ⟨⟨f, args, kwargs⟩, .whole,
        ((DeferredOp.mk f args kwargs).getRow 0).typeOf⟩ bs).getD i PyVal.none
      = (DeferredOp.mk f args kwargs).getRow i := by
  constructor
  · unfold defer
    rw [hprep]
    dsimp only [bind, Except.bind]
    rw [if_pos hlen]
  · rw [materializeLocal_eq _ bs hbs]
    exact getD_map_range _ _ i hi PyVal.none

/-- Witness for C8: `defer([1,2], lambda x: (x, x), outputs="single")`
is one deferred column materializing row 1 to the raw pair `(2, 2)`. -/
theorem single_override_witness :
    defer (.col cOneTwo) fPair .auto .single Option.none
      = .ok (.column ⟨⟨fPair, [cOneTwo], []⟩, .whole, .tupleT⟩) ∧
    (materializeLocal ⟨⟨fPair, [cOneTwo], []⟩, .whole, .tupleT⟩ 1).getD 1
        PyVal.none
      = .tuple [.int 2, .int 2] := by
  have h := single_override (.col cOneTwo) fPair .auto [cOneTwo] [] 1 1
    rfl (by decide) rfl (by decide) (by decide)
  exact ⟨h.1, h.2⟩

/-- C6 counterexample: a hop binding one positional argument and two
keyword arguments satisfies the claim's "more than one keyword argument"
condition and is in the backward chain, yet distributed materialization
returns a result instead of raising: the walk checks positional
arguments first and, finding exactly one, silently ignores the keyword
bindings. -/
theorem distributed_topology_counterexample :
    nodeBadPerClaim c6BadNode = true ∧
    c6BadNode ∈ chainNodes c6BadNode ∧
    rayMaterialize c6BadNode = .ok [.int 2, .int 4] := by
  refine ⟨rfl, ?_, rfl⟩
  have h : chainNodes c6BadNode = [c6BadNode] := rfl
  rw [h]
  exact List.mem_cons_self _ _

/-- The backward walk raises whenever a visited hop has a rejected
binding shape or the walk ends in a non-scalar base. -/
theorem walkChain_rejects : ∀ (d : MatData) (acc : List PyFn),
    ((∃ n ∈ chainNodes d, nodeBindsBadly n = true) ∨
      (∃ s, chainBase d = some (MatData.otherCol s))) →
    isErr (walkChain d acc) = true
  | .scalar data, _, hbad => by
    exfalso
    rcases hbad with ⟨n, hn, _⟩ | ⟨s, hs⟩
    · simp [chainNodes] at hn
    · simp [chainBase] at hs
  | .otherCol desc, _, _ => rfl
  | .deferredC fn [a] kwargs t, acc, hbad => by
    show isErr (walkChain a (acc ++ [fn])) = true
    apply walkChain_rejects
    rcases hbad with ⟨n, hn, hb⟩ | ⟨s, hs⟩
    · rcases List.mem_cons.mp hn with heq | h2
      · subst heq
        simp [nodeBindsBadly] at hb
      · exact Or.inl ⟨n, h2, hb⟩
    · exact Or.inr ⟨s, hs⟩
  | .deferredC fn (_ :: _ :: _) kwargs t, _, _ => rfl
  | .deferredC fn [] [] t, _, _ => rfl
  | .deferredC fn [] [p] t, acc, hbad => by
    show isErr (walkChain p.2 (acc ++ [fn])) = true
    apply walkChain_rejects
    rcases hbad with ⟨n, hn, hb⟩ | ⟨s, hs⟩
    · rcases List.mem_cons.mp hn with heq | h2
      · subst heq
        simp [nodeBindsBadly] at hb
      · exact Or.inl ⟨n, h2, hb⟩
    · exact Or.inr ⟨s, hs⟩
  | .deferredC fn [] (_ :: _ :: _) t, _, _ => rfl

/-- C6 amended: distributed materialization raises a `ValueError` and
never returns a result whenever some hop of the backward chain binds two
or more positional arguments, or no positional argument and two or more
keyword arguments, or no inputs at all, or the chain terminates in a
base column that is not a `ScalarColumn`; a hop with exactly one
positional argument is followed even when keyword arguments are also
bound (they are ignored, not rejected). -/
theorem distributed_topology_rejection (d : MatData)
    (hbad : (∃ n ∈ chainNodes d, nodeBindsBadly n = true) ∨
      (∃ s, chainBase d = some (MatData.otherCol s))) :
    isErr (rayMaterialize d) = true := by
  have h := walkChain_rejects d [] hbad
  unfold rayMaterialize
  cases hw : walkChain d [] with
  | error e => rfl
  | ok v =>
    rw [hw] at h
    cases h

/-- Witness for the amended C6: a pipeline with two independent base
columns is rejected. -/
theorem distributed_topology_rejection_witness :
    isErr (rayMaterialize c6TwoArgs) = true :=
  distributed_topology_rejection c6TwoArgs
    (Or.inl ⟨c6TwoArgs, by
      have h : chainNodes c6TwoArgs = [c6TwoArgs] := rfl
      rw [h]
      exact List.mem_cons_self _ _, rfl⟩)

/-- `mapE` does not raise when no element raises. -/
theorem mapE_ok_of_forall {α β : Type} (f : α → Except String β)
    (l : List α) (h : ∀ a ∈ l, isErr (f a) = false) :
    isErr (mapE f l) = false := by
  induction l with
  | nil => rfl
  | cons a as ih =>
    unfold mapE
    simp only [bind, Except.bind]
    cases hfa : f a with
    | error e =>
      have := h a (List.mem_cons_self a as)
      rw [hfa] at this
      cases this
    | ok b =>
      cases hrest : mapE f as with
      | error e =>
        have := ih (fun x hx => h x (List.mem_cons_of_mem a hx))
        rw [hrest] at this
        cases this
      | ok bs => rfl

/-- Building the sort keys does not raise when every sort column is
present. -/
theorem sortKeys_ok (data : List (String × List Int))
    (pairs : List (String × Bool))
    (h : ∀ p ∈ pairs, (data.lookup p.1).isSome = true) :
    isErr (buildSortKeys data pairs) = false := by
  unfold buildSortKeys
  apply mapE_ok_of_forall
  intro p hp
  simp only [bind, Except.bind]
  unfold dictLookup
  cases hl : data.lookup p.1 with
  | some c => rfl
  | none =>
    have hc := h p hp
    rw [hl] at hc
    cases hc

/-- C9 counterexample: with `by` a single-element list and `ascending` a
two-element list, the length check (which only runs when `len(by) > 1`)
is skipped — sort delegates to the column's argsort and returns a sorted
view, raising no `ValueError`. -/
theorem sort_length_mismatch_counterexample :
    sortOp dfSortEx (.list ["a"]) (.list [true, false]) argsortId
      = .ok [("a", [3, 1, 2])] := rfl

/-- C9 amended: when `by` is a list of two or more column names and
`ascending` is a list of a different length, `sort` raises the
length-mismatch `ValueError` before producing any sorted view; when `by`
is a single-element list, the check is skipped and `ascending` is passed
to the column's argsort unchecked; a scalar boolean `ascending` is
broadcast to the length of `by` and (with `by` non-empty, its columns
present) never raises. -/
theorem sort_length_mismatch (data : List (String × List Int))
    (l : List String) (asc : List Bool)
    (argsort : List Int → AscArg → List Nat)
    (hlen : 1 < l.length) (hmis : asc.length ≠ l.length) :
    sortOp data (.list l) (.list asc) argsort
      = .error ("Length of `ascending` (" ++ toString asc.length ++
          ") must be the same as length of `by` (" ++
          toString l.length ++ ").") ∧
    ∀ (b : Bool) (l2 : List String), 0 < l2.length →
      (∀ c ∈ l2, (data.lookup c).isSome = true) →
      isErr (sortOp data (.list l2) (.bool b) argsort) = false := by
  constructor
  · unfold sortOp
    rw [if_pos hlen, if_pos hmis]
  · intro b l2 hpos hcols
    unfold sortOp
    by_cases h12 : 1 < l2.length
    · rw [if_pos h12, if_neg (by simp)]
      have hpairs : ∀ p ∈ l2.reverse.zip
          ((List.replicate l2.length b).reverse),
          (data.lookup p.1).isSome = true := by
        intro p hp
        exact hcols p.1 (List.mem_reverse.mp (List.of_mem_zip hp).1)
      have hok := sortKeys_ok data
        (l2.reverse.zip ((List.replicate l2.length b).reverse)) hpairs
      cases hk : buildSortKeys data
          (l2.reverse.zip ((List.replicate l2.length b).reverse)) with
      | error e =>
        rw [hk] at hok
        cases hok
      | ok keys => rfl
    · rw [if_neg h12]
      cases l2 with
      | nil => cases hpos
      | cons b0 rest =>
        have hc := hcols b0 (List.mem_cons_self b0 rest)
        dsimp only [bind, Except.bind]
        unfold dictLookup
        cases hl : data.lookup b0 with
        | some c => rfl
        | none =>
          rw [hl] at hc
          cases hc

/-- Witness for the amended C9 on a two-column frame: `by=["a","b"]`
with `ascending=[True]` raises the length-mismatch error, while scalar
`ascending=True` is broadcast and sorts without raising. -/
theorem sort_length_mismatch_witness :
    sortOp dfSortTwo (.list ["a", "b"]) (.list [true]) argsortId
      = .error ("Length of `ascending` (" ++ toString (1 : Nat) ++
          ") must be the same as length of `by` (" ++
          toString (2 : Nat) ++ ").") ∧
    isErr (sortOp dfSortTwo (.list ["a", "b"]) (.bool true) argsortId)
      = false := by
  have h := sort_length_mismatch dfSortTwo ["a", "b"] [true] argsortId
    (by decide) (by decide)
  exact ⟨h.1, h.2 true ["a", "b"] (by decide) (by decide)⟩

end Meerkat
